import Mathlib

/-!
Verification development for the genome representation and genetic operators of
`cea/optimization_new/helpercalsses/optimization/connectivity.py`
(classes `Connection` and `ConnectivityVector`).

Modelling conventions (shallow embedding of the Python source):

* Python runtime values that can reach `Connection.network_connection` are
  modelled by `PyVal` (ints, bools, floats-as-rationals, `None`).  Python `==`
  on these values is numeric-class equality, modelled by `pyEq`.
* The class-level configuration installed by `Connection.initialize_class_variables`
  (maximum number of networks, building codes, zero-demand buildings) is passed
  explicitly as a `DomainConfig` value instead of mutable class attributes.
* Exceptions are modelled with `Except String`; the string carries the Python
  exception kind.
* `random` draws are modelled by an explicit oracle stream `Rng`; every
  `random.random()` consumes one rational from `floats` and every
  `random.choice` consumes one index from `nats`.
* Python `set` iteration order is unspecified (hash-based); every place the
  source calls `list(set(..))` or iterates a set therefore takes an
  order oracle `f` assumed to satisfy `IsPySetOrder f` (it returns the distinct
  elements of its input, in some order).
* The external collaborators (deap mutation/crossover primitives,
  `Clustering(...).cluster()`, `tools.emo.sortLogNondominated`, the `Fitness`
  objects and the optimization tracker) are out of scope per the design and are
  passed in as opaque function arguments or precomputed data.
-/

namespace CEA

/-- A Python runtime value as far as `Connection.network_connection` is concerned:
integers, booleans (which are `int` instances in Python), floats (modelled as
exact rationals; binary floating point representation effects are not modelled,
all claims exercise integer or zero values only) and `None`. -/
inductive PyVal where
  | pyInt (n : Int)
  | pyBool (b : Bool)
  | pyFloat (q : ℚ)
  | pyNone
deriving DecidableEq, Repr

/-- Python truthiness of a `PyVal`: zero numbers, `False` and `None` are falsy. -/
def PyVal.truthy : PyVal → Bool
  | .pyInt n => n ≠ 0
  | .pyBool b => b
  | .pyFloat q => q ≠ 0
  | .pyNone => false

/-- Python `isinstance(v, int)`: true for ints and bools (bool subclasses int). -/
def PyVal.isIntInstance : PyVal → Bool
  | .pyInt _ => true
  | .pyBool _ => true
  | .pyFloat _ => false
  | .pyNone => false

/-- The integer magnitude of an int-instance value (only meaningful when
`isIntInstance` holds; the range check in the setter is only reached for
int instances). -/
def PyVal.asInt : PyVal → Int
  | .pyInt n => n
  | .pyBool b => cond b 1 0
  | .pyFloat _ => 0
  | .pyNone => 0

/-- The numeric equivalence class of a value under Python `==`
(`0 == 0.0 == False`, while `None` is equal only to itself). -/
def PyVal.numVal : PyVal → Option ℚ
  | .pyInt n => some n
  | .pyBool b => some (cond b 1 0)
  | .pyFloat q => some q
  | .pyNone => none

/-- Python `==` between two values of the kinds above. -/
def pyEq (a b : PyVal) : Bool := decide (a.numVal = b.numVal)

/-- Python `list.count(v)`: number of elements `==`-equal to `v`. -/
def pyCount (xs : List PyVal) (v : PyVal) : Nat := (xs.filter (fun x => pyEq x v)).length

/-- The domain-level configuration that `Connection.initialize_class_variables`
stores in class attributes: `possible_connections = range(max+1)`,
`possible_building_codes` and `zero_demand_buildings`. -/
structure DomainConfig where
  maximumNumberOfNetworks : Nat
  possibleBuildingCodes : List String
  zeroDemandBuildings : List String
deriving DecidableEq, Repr

/-- One gene: a building code (or `None`) together with its stored
network-connection value.  The stored value is whatever the
`network_connection` setter last committed (normally an int, but falsy
non-ints slip through, see the setter below). -/
structure Connection where
  building : Option String
  networkConnection : PyVal
deriving DecidableEq, Repr

/-- Python `self.building in Connection.zero_demand_buildings`
(`None` is never in a list of strings). -/
def Connection.isZeroDemand (cfg : DomainConfig) (c : Connection) : Bool :=
  match c.building with
  | some b => cfg.zeroDemandBuildings.contains b
  | none => false

/-- Membership test `new_connection in Connection.possible_connections`, i.e.
`new_connection in range(0, maximum_number_of_networks + 1)`; only reached for
int instances. -/
def inPossibleConnections (cfg : DomainConfig) (v : PyVal) : Bool :=
  decide (0 ≤ v.asInt) && decide (v.asInt ≤ (cfg.maximumNumberOfNetworks : Int))

/-- The `Connection.network_connection` property setter:
raise for truthy non-ints, raise for truthy ints outside the legal range,
pin zero-demand buildings to `0`, otherwise store the value unchanged
(falsy values — `0`, `0.0`, `False`, `None` — skip both checks). -/
def setNetworkConnection (cfg : DomainConfig) (c : Connection) (v : PyVal) :
    Except String Connection :=
  if v.truthy && !v.isIntInstance then
    .error "ValueError: Network connection indicators need to be integer values."
  else if v.truthy && !inPossibleConnections cfg v then
    .error "ValueError: The network connection indicator needs to be in the legal range."
  else if c.isZeroDemand cfg then
    .ok { c with networkConnection := .pyInt 0 }
  else
    .ok { c with networkConnection := v }

/-- The `Connection.building` property setter (building arguments are either
`None` or strings in this model; the non-string branch of the Python setter is
unreachable for them).  An empty string is falsy and skips the membership
check, like `None`. -/
def setBuilding (cfg : DomainConfig) (c : Connection) (b : Option String) :
    Except String Connection :=
  match b with
  | none => .ok { c with building := none }
  | some code =>
      if code ≠ "" && !(cfg.possibleBuildingCodes.contains code) then
        .error "ValueError: The building code needs to be a valid identifier."
      else
        .ok { c with building := some code }

/-- `Connection.__init__`: assign the building code through its setter, then
assign the network connection through its setter — falsy `network_connection`
arguments (including the default `None`) are replaced by `0`. -/
def connectionInit (cfg : DomainConfig) (networkConnection : PyVal)
    (buildingCode : Option String) : Except String Connection := do
  let c ← setBuilding cfg { building := none, networkConnection := .pyInt 0 } buildingCode
  if networkConnection.truthy then
    setNetworkConnection cfg c networkConnection
  else
    setNetworkConnection cfg c (.pyInt 0)

/-- The genome: an ordered list of `Connection` values.  The `fitness`
attribute (an external deap `Fitness` object) plays no role in any modelled
operation and is omitted. -/
structure ConnectivityVector where
  connections : List Connection
deriving DecidableEq, Repr

/-- The network connection values `i` of `Connection.possible_connections`
that appear exactly once in the value list
(`[i for i in Connection.possible_connections if new_values.count(i) == 1]`). -/
def valuesAppearingOnce (cfg : DomainConfig) (vals : List PyVal) : List Nat :=
  (List.range (cfg.maximumNumberOfNetworks + 1)).filter
    (fun i => pyCount vals (.pyInt i) == 1)

/-- Python membership `value in values_appearing_once` (list membership uses
`==`, hence `pyEq` against each int of the list). -/
def collapseHit (once : List Nat) (v : PyVal) : Bool :=
  once.any (fun i => pyEq v (.pyInt i))

/-- The `ConnectivityVector.connections` property setter, after its
type check has passed: values of `possible_connections` appearing exactly once
are reassigned to `0` through the `network_connection` setter (which stores
`0` whether or not the building is zero-demand), then the list is stored. -/
def setConnections (cfg : DomainConfig) (cs : List Connection) : ConnectivityVector :=
  let once := valuesAppearingOnce cfg (cs.map (·.networkConnection))
  ⟨cs.map (fun c =>
    if collapseHit once c.networkConnection then
      { c with networkConnection := .pyInt 0 }
    else c)⟩

/-- The `values` property getter: the tuple of stored network connection
values, in genome order. -/
def values (cv : ConnectivityVector) : List PyVal :=
  cv.connections.map (·.networkConnection)

/-- `ConnectivityVector.__getitem__` for an integer index: the stored
network-connection value at that position, `IndexError` when out of range
(negative wrap-around indices do not occur in the modelled operators). -/
def getitemInt (cv : ConnectivityVector) (i : Nat) : Except String PyVal :=
  match cv.connections.get? i with
  | some c => .ok c.networkConnection
  | none => .error "IndexError: list index out of range"

/-- Python `round(value, 2)` as applied by `__setitem__`.  Ints and bools are
returned as ints; for floats the rational is rounded half-to-even at two
decimals (binary representation noise of real floats is not modelled; all
claims exercise integer values); `round(None, 2)` raises. -/
def pyRound2 : PyVal → Except String PyVal
  | .pyInt n => .ok (.pyInt n)
  | .pyBool b => .ok (.pyInt (cond b 1 0))
  | .pyFloat q =>
      let f : Int := ⌊q * 100⌋
      let r : ℚ := q * 100 - f
      let n : Int :=
        if r < 1/2 then f else if 1/2 < r then f + 1 else if f % 2 = 0 then f else f + 1
      .ok (.pyFloat (n / 100))
  | .pyNone => .error "TypeError: type NoneType does not define a rounding method"

/-- `ConnectivityVector.__setitem__` for an integer index:
`self.connections[key].network_connection = round(value, 2)`. -/
def setitemInt (cfg : DomainConfig) (cv : ConnectivityVector) (i : Nat) (v : PyVal) :
    Except String ConnectivityVector :=
  match pyRound2 v with
  | .error e => .error e
  | .ok v2 =>
      match cv.connections.get? i with
      | none => .error "IndexError: list assignment index out of range"
      | some c =>
          match setNetworkConnection cfg c v2 with
          | .error e => .error e
          | .ok c2 => .ok ⟨cv.connections.set i c2⟩

/-- The `values` property setter, after its `isinstance(new_values, list)`
check (given by the type here): raise unless the length matches, rewrite
values appearing exactly once to `0`, then assign position by position through
`__setitem__` (each assignment re-validating via the `network_connection`
setter). -/
def setValues (cfg : DomainConfig) (cv : ConnectivityVector) (newValues : List PyVal) :
    Except String ConnectivityVector :=
  if newValues.length ≠ cv.connections.length then
    .error "ValueError: To assign new network connection indicator values they need to be given as a list of the same length as the connectivity vector."
  else
    let once := valuesAppearingOnce cfg newValues
    let rewritten := newValues.map (fun v => if collapseHit once v then .pyInt 0 else v)
    (List.range cv.connections.length).foldlM
      (fun acc i => setitemInt cfg acc i (rewritten.getD i .pyNone)) cv

/-- `ConnectivityVector.reset`: `self.connections = self.connections`, i.e.
re-run the connections setter (singleton collapse) on the current list. -/
def reset (cfg : DomainConfig) (cv : ConnectivityVector) : ConnectivityVector :=
  setConnections cfg cv.connections

/-- Python `str(value)` for the stored values (only ints occur in the claims). -/
def pyStr : PyVal → String
  | .pyInt n => toString n
  | .pyBool b => cond b "True" "False"
  | .pyFloat q => toString q
  | .pyNone => "None"

/-- `ConnectivityVector.as_str`: the network connection values joined by
underscores — the deduplication key used during selection. -/
def asStr (cv : ConnectivityVector) : String :=
  String.intercalate "_" ((values cv).map pyStr)

/-- An element of the Python list handed to `ConnectivityVector.__init__`:
either a genuine `Connection` instance or some other object. -/
inductive PyListElem where
  | conn (c : Connection)
  | nonConn
deriving DecidableEq, Repr

/-- The `connection_list` argument of `ConnectivityVector.__init__`:
omitted (default `None`), explicit `None`, a Python list, or some truthy
non-list object. -/
inductive InitArg where
  | omitted
  | noneArg
  | pyList (xs : List PyListElem)
  | nonListTruthy
deriving DecidableEq, Repr

/-- Python truthiness of the constructor argument (an empty list is falsy). -/
def InitArg.truthy : InitArg → Bool
  | .omitted => false
  | .noneArg => false
  | .pyList xs => !xs.isEmpty
  | .nonListTruthy => true

/-- `Connection()` with both arguments defaulted: the building setter stores
`None`, the falsy network-connection default is replaced by `0`, and no
zero-demand pin applies to a `None` building — for every configuration the
result is this connection. -/
def defaultConnection : Connection := ⟨none, .pyInt 0⟩

/-- Whether a list element is a `Connection` instance. -/
def isConnElem : PyListElem → Bool
  | .conn _ => true
  | .nonConn => false

/-- Unwrap a `Connection` list element. -/
def extractConn : PyListElem → Option Connection
  | .conn c => some c
  | .nonConn => none

/-- `ConnectivityVector.__init__`: a falsy argument (`None`, empty list)
takes the default branch `self.connections = [Connection()]`; a truthy
argument goes through the `connections` setter, whose type check raises unless
it is a list whose elements are all `Connection` instances. -/
def connectivityVectorInit (cfg : DomainConfig) (arg : InitArg) :
    Except String ConnectivityVector :=
  if arg.truthy = false then .ok (setConnections cfg [defaultConnection])
  else
    match arg with
    | .pyList xs =>
        if xs.all isConnElem then
          .ok (setConnections cfg (xs.filterMap extractConn))
        else
          .error "ValueError: The initialisation of a new connectivity vector requires a list of Connection objects."
    | _ =>
        .error "ValueError: The initialisation of a new connectivity vector requires a list of Connection objects."

/-- Oracle stream for the process-wide `random` source: `random.random()`
consumes one rational from `floats`, `random.choice` consumes one index from
`nats`.  An exhausted stream yields `0`. -/
structure Rng where
  floats : List ℚ
  nats : List Nat
deriving DecidableEq, Repr

/-- `random.random()`. -/
def Rng.next : Rng → ℚ × Rng
  | ⟨[], ns⟩ => (0, ⟨[], ns⟩)
  | ⟨f :: fs, ns⟩ => (f, ⟨fs, ns⟩)

/-- `random.choice(xs)` via the index stream. -/
def randomChoice (xs : List Int) (r : Rng) : Int × Rng :=
  match r.nats with
  | [] => (xs.getD 0 0, r)
  | n :: ns => (xs.getD (n % xs.length) 0, { r with nats := ns })

/-- `ConnectivityVector.select_values_with_probability`: keep each value with
probability `probability`, one `random.random()` draw per value. -/
def selectValuesWithProbability {α : Type} (vals : List α) (probability : ℚ) (r : Rng) :
    List α × Rng :=
  vals.foldl
    (fun st v =>
      let d := st.2.next
      (if d.1 < probability then st.1 ++ [v] else st.1, d.2))
    (([] : List α), r)

/-- Genetic-algorithm settings object (`algorithm.mutation`,
`algorithm.mut_prob`, `algorithm.crossover`, `algorithm.cx_prob`). -/
structure GAalgorithm where
  mutation : String
  mutProb : ℚ
  crossover : String
  cxProb : ℚ
deriving DecidableEq, Repr

/-- Python `[i for i, x in enumerate(cluster_indexes) if x == cluster]`. -/
def relevantBuildingIndexes (clusterIndexes : List Int) (cluster : Int) : List Nat :=
  clusterIndexes.enum.filterMap (fun ix => if ix.2 = cluster then some ix.1 else none)

/-- `ConnectivityVector.ClusterSwitch`: walk the distinct cluster indexes (set
iteration order given by the oracle `σZ`); a non-negative cluster draws one
replacement value and applies it to each member with probability `mut_prob`;
each negative cluster index triggers one pass over all outlier positions,
re-drawing an individual random value per outlier with probability
`mut_prob`. -/
def clusterSwitch (cfg : DomainConfig) (σZ : List Int → List Int)
    (clusterIndexes : List Int) (cv : ConnectivityVector) (mutProb : ℚ) (r : Rng) :
    Except String (ConnectivityVector × Rng) :=
  let clusters := σZ clusterIndexes
  let possibleConnections : List Int :=
    (List.range (cfg.maximumNumberOfNetworks + 1)).map (fun n => (n : Int))
  clusters.foldlM
    (fun (st : ConnectivityVector × Rng) cluster =>
      if 0 ≤ cluster then
        let ch := randomChoice possibleConnections st.2
        clusterIndexes.enum.foldlM
          (fun (st2 : ConnectivityVector × Rng) ix =>
            if ix.2 = cluster then
              let d := st2.2.next
              if d.1 < mutProb then do
                let cv2 ← setitemInt cfg st2.1 ix.1 (.pyInt ch.1)
                pure (cv2, d.2)
              else pure (st2.1, d.2)
            else pure st2)
          (st.1, ch.2)
      else
        clusterIndexes.enum.foldlM
          (fun (st2 : ConnectivityVector × Rng) ix =>
            if ix.2 < 0 then
              let d := st2.2.next
              if d.1 < mutProb then do
                let ch := randomChoice possibleConnections d.2
                let cv2 ← setitemInt cfg st2.1 ix.1 (.pyInt ch.1)
                pure (cv2, ch.2)
              else pure (st2.1, d.2)
            else pure st2)
          st)
    (cv, r)

/-- The value `mutate` holds after its dispatch: the deap mutation operators
return a 1-tuple containing the genome, while `ClusterSwitch` returns the bare
genome object. -/
inductive MutateResult where
  | deapTuple (g : ConnectivityVector)
  | genomeObj (g : ConnectivityVector)
deriving DecidableEq, Repr

/-- `ConnectivityVector.mutate`: dispatch on `algorithm.mutation`
(`ShuffleIndexes` and `UniformInteger` call the external deap operators,
passed here as oracles that mutate in place and return the genome wrapped in
the deap 1-tuple; `ClusterSwitch` uses the cached cluster indexes, passed here
as `clusterIndexes`), raise for unknown selectors, then run
`mutated_cv[0].reset()`.  Indexing the deap tuple at `0` yields the genome;
indexing the bare genome returned by `ClusterSwitch` yields its first stored
network-connection value (an int), whose `reset` attribute lookup raises. -/
def mutate (cfg : DomainConfig) (σZ : List Int → List Int) (clusterIndexes : List Int)
    (deapMutShuffleIndexes deapMutUniformInt : ConnectivityVector → Rng → ConnectivityVector × Rng)
    (algorithm : GAalgorithm) (cv : ConnectivityVector) (r : Rng) :
    Except String (MutateResult × Rng) := do
  let step : Except String (MutateResult × Rng) :=
    if algorithm.mutation = "ShuffleIndexes" then
      let gr := deapMutShuffleIndexes cv r
      .ok (.deapTuple gr.1, gr.2)
    else if algorithm.mutation = "UniformInteger" then
      let gr := deapMutUniformInt cv r
      .ok (.deapTuple gr.1, gr.2)
    else if algorithm.mutation = "ClusterSwitch" then
      match clusterSwitch cfg σZ clusterIndexes cv algorithm.mutProb r with
      | .ok gr => .ok (.genomeObj gr.1, gr.2)
      | .error e => .error e
    else
      .error "ValueError: The chosen mutation method has not been implemented for connectivity vectors."
  match step with
  | .error e => .error e
  | .ok (mutatedCv, r2) =>
      match mutatedCv with
      | .deapTuple g => .ok (.deapTuple (reset cfg g), r2)
      | .genomeObj g =>
          match getitemInt g 0 with
          | .ok _ => .error "AttributeError: int object has no attribute reset"
          | .error e => .error e

/-- `ConnectivityVector.ClusterSwap`: pick clusters from `list(set(indexes))`
(set order oracle `σZ`) each with probability `cx_prob` — note that negative
(outlier) cluster indexes participate in this draw — then swap the stored
values of every position of each selected cluster between the two genomes. -/
def clusterSwap (cfg : DomainConfig) (σZ : List Int → List Int)
    (clusterIndexes : List Int) (cv1 cv2 : ConnectivityVector) (cxProb : ℚ) (r : Rng) :
    Except String ((ConnectivityVector × ConnectivityVector) × Rng) := do
  let clusters := σZ clusterIndexes
  let sel := selectValuesWithProbability clusters cxProb r
  let pair ← sel.1.foldlM
    (fun (p : ConnectivityVector × ConnectivityVector) cluster =>
      (relevantBuildingIndexes clusterIndexes cluster).foldlM
        (fun (p2 : ConnectivityVector × ConnectivityVector) index => do
          let v2 ← getitemInt p2.2 index
          let v1 ← getitemInt p2.1 index
          let a ← setitemInt cfg p2.1 index v2
          let b ← setitemInt cfg p2.2 index v1
          pure (a, b))
        p)
    (cv1, cv2)
  pure (pair, sel.2)

/-- The stored value at an in-range position (`__getitem__` without the
`IndexError` case; `pyNone` stands for the unreachable out-of-range case). -/
def valueAt (cv : ConnectivityVector) (i : Nat) : PyVal :=
  match cv.connections.get? i with
  | some c => c.networkConnection
  | none => .pyNone

/-- The list comprehension `[cv[i] for i in indexes]`. -/
def getValuesAt (cv : ConnectivityVector) : List Nat → Except String (List PyVal)
  | [] => .ok []
  | i :: is =>
      match getitemInt cv i with
      | .error e => .error e
      | .ok v =>
          match getValuesAt cv is with
          | .error e => .error e
          | .ok vs => .ok (v :: vs)

/-- Python `max(set(vals), key=vals.count)` once the set iteration order
`d :: ds` is fixed: walk the distinct values, replacing the current best only
on a strictly greater count (so `max` keeps the first maximal element it
encounters). -/
def pyMaxByCount (vals : List PyVal) (d : PyVal) (ds : List PyVal) : PyVal :=
  ds.foldl (fun best x => if pyCount vals best < pyCount vals x then x else best) d

/-- One iteration of `_get_most_prevalent_connectivity_values`: skip negative
clusters; otherwise gather the cluster member positions, read their values,
take `max(set(values), key=count)` (set order oracle `σP`; `max` of an empty
sequence raises) and write it at every member position. -/
def getMostStep (σP : List PyVal → List PyVal) (clusterIndexes : List Int)
    (cv : ConnectivityVector) (mpv : List PyVal) (cluster : Int) :
    Except String (List PyVal) :=
  if cluster < 0 then pure mpv
  else do
    let relevant := relevantBuildingIndexes clusterIndexes cluster
    let vals ← getValuesAt cv relevant
    match σP vals with
    | [] => Except.error "ValueError: max arg is an empty sequence"
    | d :: ds =>
        pure (relevant.foldl (fun acc index => acc.set index (pyMaxByCount vals d ds)) mpv)

/-- `ConnectivityVector._get_most_prevalent_connectivity_values`: start from
`[None] * len(cv)` and fill in each non-negative cluster with its most
prevalent connectivity value. -/
def getMostPrevalentConnectivityValues (σP : List PyVal → List PyVal)
    (clusterIndexes : List Int) (cv : ConnectivityVector) (clusters : List Int) :
    Except String (List PyVal) :=
  clusters.foldlM (getMostStep σP clusterIndexes cv)
    (List.replicate cv.connections.length .pyNone)

/-- The values of one cluster of a genome, in position order (what
`building_connectivity_values` holds for that cluster when every index is in
range). -/
def clusterVals (clusterIndexes : List Int) (cv : ConnectivityVector) (cluster : Int) :
    List PyVal :=
  (relevantBuildingIndexes clusterIndexes cluster).map (valueAt cv)

/-- The value `max(set(values), key=count)` yields for one cluster, given the
set-order oracle (`pyNone` stands for the unreachable empty-cluster case). -/
def clusterMode (σP : List PyVal → List PyVal) (clusterIndexes : List Int)
    (cv : ConnectivityVector) (cluster : Int) : PyVal :=
  match σP (clusterVals clusterIndexes cv cluster) with
  | [] => .pyNone
  | d :: ds => pyMaxByCount (clusterVals clusterIndexes cv cluster) d ds

/-- `ConnectivityVector.ClusterAlignment`: compute both genomes' prevailing
cluster values, collect the positions where each genome matches the other
genome's prevailing value, keep each with probability `cx_prob` and swap
those positions. -/
def clusterAlignment (cfg : DomainConfig) (σZ : List Int → List Int)
    (σP : List PyVal → List PyVal) (clusterIndexes : List Int)
    (cv1 cv2 : ConnectivityVector) (cxProb : ℚ) (r : Rng) :
    Except String ((ConnectivityVector × ConnectivityVector) × Rng) := do
  let clusters := σZ clusterIndexes
  let p1 ← getMostPrevalentConnectivityValues σP clusterIndexes cv1 clusters
  let p2 ← getMostPrevalentConnectivityValues σP clusterIndexes cv2 clusters
  let swappable ← (p1.zip p2).enum.foldlM
    (fun (acc : List Nat) ix => do
      let v1 ← getitemInt cv1 ix.1
      let v2 ← getitemInt cv2 ix.1
      pure (if pyEq v1 ix.2.2 && pyEq v2 ix.2.1 then acc ++ [ix.1] else acc))
    ([] : List Nat)
  let sel := selectValuesWithProbability swappable cxProb r
  let pair ← sel.1.foldlM
    (fun (p : ConnectivityVector × ConnectivityVector) building => do
      let v2 ← getitemInt p.2 building
      let v1 ← getitemInt p.1 building
      let a ← setitemInt cfg p.1 building v2
      let b ← setitemInt cfg p.2 building v1
      pure (a, b))
    (cv1, cv2)
  pure (pair, sel.2)

/-- An energy-system solution (`deap.creator.SystemCombination`): all the
selection code reads from it is `encoding[0]`, the `as_str` key of the genome
it came from (non-dominated sorting itself is the external
`tools.emo.sortLogNondominated` and is passed as a function argument). -/
structure SystemCombination where
  encoding0 : String
deriving DecidableEq, Repr

/-- Python dict insertion `d[k] = v` for a string-keyed dict kept as an
insertion-ordered association list: overwrite in place if the key exists,
append otherwise. -/
def dictInsert (d : List (String × ConnectivityVector)) (k : String)
    (v : ConnectivityVector) : List (String × ConnectivityVector) :=
  if d.any (fun kv => kv.1 == k) then
    d.map (fun kv => if kv.1 == k then (k, v) else kv)
  else d ++ [(k, v)]

/-- `{ind.as_str(): ind for ind in individuals_list}` (later duplicates
overwrite earlier entries). -/
def buildIndividualDict (individualsList : List ConnectivityVector) :
    List (String × ConnectivityVector) :=
  individualsList.foldl (fun d ind => dictInsert d (asStr ind) ind) []

/-- The per-front key lists: `list(set(solution.encoding[0] for solution in
front))` for each front, set iteration order given by the oracle `σS`. -/
def connectivityVectorsByFront (σS : List String → List String)
    (fronts : List (List SystemCombination)) : List (List String) :=
  fronts.map (fun front => σS (front.map (·.encoding0)))

/-- The inner selection loop over one front: stop once the population is
full; a key still present in the dict appends its genome and is deleted. -/
def selectFromFront (populationSize : Nat) :
    List String → List (String × ConnectivityVector) → List ConnectivityVector →
    List ConnectivityVector × List (String × ConnectivityVector)
  | [], dict, pop => (pop, dict)
  | k :: ks, dict, pop =>
      if populationSize ≤ pop.length then (pop, dict)
      else
        match dict.find? (fun kv => kv.1 == k) with
        | some kv =>
            selectFromFront populationSize ks (dict.filter (fun kv2 => !(kv2.1 == k)))
              (pop ++ [kv.2])
        | none => selectFromFront populationSize ks dict pop

/-- The outer selection loop over the fronts, in front order. -/
def selectLoop (populationSize : Nat) :
    List (List String) → List (String × ConnectivityVector) → List ConnectivityVector →
    List ConnectivityVector
  | [], _, pop => pop
  | front :: fronts, dict, pop =>
      if populationSize ≤ pop.length then pop
      else
        let pd := selectFromFront populationSize front dict pop
        selectLoop populationSize fronts pd.2 pd.1

/-- `ConnectivityVector.select`: build the `as_str` dict, flatten the solution
lists (`sum(energy_system_solutions_dict.values(), start=[])`, dict values in
insertion order), run the external non-dominated sorter, group the genome keys
by front and walk the fronts.  The optimization tracker is a pure observer and
is omitted. -/
def select (σS : List String → List String)
    (sortFronts : List SystemCombination → List (List SystemCombination))
    (individualsList : List ConnectivityVector)
    (solutionsLists : List (List SystemCombination))
    (populationSize : Nat) : List ConnectivityVector :=
  let individualDict := buildIndividualDict individualsList
  let allSupsysCombinations := solutionsLists.flatten
  let fronts := sortFronts allSupsysCombinations
  selectLoop populationSize (connectivityVectorsByFront σS fronts) individualDict []

/-- What it means for a function to be a legal iteration order of a Python
set built from a list: it returns the distinct elements of the list, each
exactly once, in some (hash-dependent, unspecified) order. -/
def IsPySetOrder {α : Type} (f : List α → List α) : Prop :=
  ∀ xs : List α, (f xs).Nodup ∧ ∀ a : α, a ∈ f xs ↔ a ∈ xs

/-- Modelled from the spec wording for selection: the distinct keys of a
front in the order their solutions are first encountered. -/
def distinctKeysInEncounterOrder (ks : List String) : List String :=
  ks.foldl (fun acc k => if k ∈ acc then acc else acc ++ [k]) []

/-- Modelled from the spec wording for `ClusterAlignment`: the most frequent
value of a cluster, ties broken by the value that first appears in position
order. -/
def specClusterMode (vals : List PyVal) : Option PyVal :=
  vals.find? (fun v => vals.all (fun w => pyCount vals w ≤ pyCount vals v))

/-- Modelled from the spec wording: the per-position list of prevailing
cluster values, `None` at outlier positions, the first-encountered mode at
cluster positions. -/
def specMostPrevalentValues (clusterIndexes : List Int) (cv : ConnectivityVector) :
    List PyVal :=
  clusterIndexes.enum.map (fun (ix : Nat × Int) =>
    if ix.2 < 0 then .pyNone
    else
      match specClusterMode (clusterVals clusterIndexes cv ix.2) with
      | some v => v
      | none => .pyNone)

/-- Whether a call raised (used to state exception behaviour). -/
def pyRaises {α : Type} : Except String α → Bool
  | .error _ => true
  | .ok _ => false

/-- A small concrete domain used by the concrete evaluations: four buildings,
up to two networks, no zero-demand building. -/
def cfgEx : DomainConfig := ⟨2, ["B1001", "B1002", "B1003", "B1004"], []⟩

/-- A genome holding the given integer values (buildings left anonymous). -/
def genomeOfInts (vs : List Int) : ConnectivityVector :=
  ⟨vs.map (fun n => ⟨none, .pyInt n⟩)⟩

/-!  ## Theorems  -/

/-- Python set iteration order is unspecified; `List.dedup` (keep the last
occurrence of each element) is one legal order. -/
theorem isPySetOrder_dedup {α : Type} [DecidableEq α] :
    IsPySetOrder (fun xs : List α => xs.dedup) :=
  fun xs => ⟨List.nodup_dedup xs, fun _ => List.mem_dedup⟩

/-- Claim C7: for a building flagged zero-demand, assigning any non-zero
integer network id within the legal range succeeds and stores `0`. -/
theorem zero_demand_pin (cfg : DomainConfig) (c : Connection) (n : Int)
    (hzd : c.isZeroDemand cfg = true) (_hn : n ≠ 0)
    (h0 : 0 ≤ n) (hm : n ≤ (cfg.maximumNumberOfNetworks : Int)) :
    setNetworkConnection cfg c (.pyInt n) = .ok { c with networkConnection := .pyInt 0 } := by
  simp [setNetworkConnection, PyVal.truthy, PyVal.isIntInstance, inPossibleConnections,
    PyVal.asInt, hzd, h0, hm]

/-- Witness for C7: a concrete zero-demand building pinned to `0`. -/
theorem zero_demand_pin_witness :
    setNetworkConnection ⟨2, ["B1001"], ["B1001"]⟩ ⟨some "B1001", .pyInt 0⟩ (.pyInt 2) =
      .ok ⟨some "B1001", .pyInt 0⟩ :=
  zero_demand_pin ⟨2, ["B1001"], ["B1001"]⟩ ⟨some "B1001", .pyInt 0⟩ 2
    (by decide) (by decide) (by decide) (by decide)

/-- Claim C10: the `network_connection` setter raises exactly when the value
is truthy and is a non-int or an out-of-range int; every falsy value skips
both checks and is stored unchanged (or as `0` for a zero-demand building),
so a position can come to hold `None` or `0.0`. -/
theorem network_connection_setter_exact (cfg : DomainConfig) (c : Connection) (v : PyVal) :
    (pyRaises (setNetworkConnection cfg c v) = true ↔
      v.truthy = true ∧ (v.isIntInstance = false ∨ inPossibleConnections cfg v = false))
    ∧ (v.truthy = false →
        setNetworkConnection cfg c v =
          .ok { c with networkConnection := if c.isZeroDemand cfg then .pyInt 0 else v }) := by
  unfold setNetworkConnection
  cases h1 : v.truthy <;> cases h2 : v.isIntInstance <;>
    cases h3 : inPossibleConnections cfg v <;> cases h4 : c.isZeroDemand cfg <;>
      simp [h1, h2, h3, h4, pyRaises]

/-- Witness for C10: assigning `None` to a non-zero-demand connection is
accepted and stored unchanged. -/
theorem network_connection_setter_exact_witness :
    setNetworkConnection cfgEx defaultConnection .pyNone =
      .ok { defaultConnection with
            networkConnection :=
              if defaultConnection.isZeroDemand cfgEx then .pyInt 0 else .pyNone } :=
  (network_connection_setter_exact cfgEx defaultConnection .pyNone).2 rfl

/-- Counterexample for C9: constructing from a present-but-empty list does not
raise — the empty list is falsy, so the default branch builds the single
default connection, exactly as when the argument is omitted. -/
theorem init_empty_list_is_default :
    connectivityVectorInit cfgEx (.pyList []) = .ok ⟨[defaultConnection]⟩ ∧
    connectivityVectorInit cfgEx (.pyList []) = connectivityVectorInit cfgEx .omitted := by
  exact ⟨rfl, rfl⟩

/-- Claim C9 (amended): a falsy constructor argument (omitted, `None`, empty
list) yields the single default connection; a truthy argument raises unless
it is a list of `Connection` instances, which is canonicalized and stored. -/
theorem connectivity_vector_init_cases (cfg : DomainConfig) (arg : InitArg) :
    (arg.truthy = false →
      connectivityVectorInit cfg arg = .ok (setConnections cfg [defaultConnection]))
    ∧ (∀ xs, arg = .pyList xs → arg.truthy = true →
        (xs.all isConnElem = true →
          connectivityVectorInit cfg arg = .ok (setConnections cfg (xs.filterMap extractConn)))
        ∧ (xs.all isConnElem = false → pyRaises (connectivityVectorInit cfg arg) = true))
    ∧ (arg = .nonListTruthy → pyRaises (connectivityVectorInit cfg arg) = true) := by
  refine ⟨?_, ?_, ?_⟩
  · intro h; simp [connectivityVectorInit, h]
  · rintro xs rfl ht
    constructor <;> intro hall <;> simp [connectivityVectorInit, ht, hall, pyRaises]
  · rintro rfl; simp [connectivityVectorInit, InitArg.truthy, pyRaises]

/-- Witness for the amended C9: the empty list takes the default branch. -/
theorem connectivity_vector_init_cases_witness :
    connectivityVectorInit cfgEx (.pyList []) = .ok (setConnections cfgEx [defaultConnection]) :=
  (connectivity_vector_init_cases cfgEx (.pyList [])).1 rfl

/-- Claim C1 (code behaviour at the failing input): with the `ClusterSwitch`
selector, `mutate` raises `AttributeError` instead of resetting and returning
the genome — `ClusterSwitch` returns the genome itself rather than a deap
1-tuple, so `mutated_cv[0]` is the first stored network-connection value. -/
theorem mutate_cluster_switch_attribute_error :
    mutate cfgEx (fun xs => xs.dedup) [0, 0] (fun cv r => (cv, r)) (fun cv r => (cv, r))
      ⟨"ClusterSwitch", 1, "OnePoint", 1⟩ (genomeOfInts [1, 1]) ⟨[0, 0], [1]⟩ =
    .error "AttributeError: int object has no attribute reset" := by
  rfl

/-- Claim C2 (code behaviour at the failing input): when both positions are
outliers (cluster index `-1`) and the probability draw selects the `-1`
cluster, `ClusterSwap` swaps the outlier positions of both genomes. -/
theorem cluster_swap_swaps_outliers :
    clusterSwap cfgEx (fun xs => xs.dedup) [-1, -1]
      (genomeOfInts [1, 1]) (genomeOfInts [2, 2]) 1 ⟨[0], []⟩ =
    .ok ((genomeOfInts [2, 2], genomeOfInts [1, 1]), ⟨[], []⟩) := by
  rfl

theorem pyEq_true_iff (a b : PyVal) : pyEq a b = true ↔ a.numVal = b.numVal := by
  simp [pyEq]

theorem pyCount_eq_countP (xs : List PyVal) (v : PyVal) :
    pyCount xs v = xs.countP (fun x => pyEq x v) := by
  simp [pyCount, List.countP_eq_length_filter]

theorem mem_valuesAppearingOnce (cfg : DomainConfig) (vals : List PyVal) (i : Nat) :
    i ∈ valuesAppearingOnce cfg vals ↔
      i < cfg.maximumNumberOfNetworks + 1 ∧ pyCount vals (.pyInt i) = 1 := by
  simp [valuesAppearingOnce, List.mem_filter, List.mem_range]

theorem collapseHit_true_iff (once : List Nat) (v : PyVal) :
    collapseHit once v = true ↔ ∃ i ∈ once, v.numVal = some (i : ℚ) := by
  simp [collapseHit, pyEq_true_iff, PyVal.numVal]

theorem numVal_nat_inj {v : PyVal} {i j : Nat} (hi : v.numVal = some (i : ℚ))
    (hj : v.numVal = some (j : ℚ)) : i = j := by
  rw [hi] at hj
  exact_mod_cast Option.some.inj hj

theorem values_setConnections (cfg : DomainConfig) (cs : List Connection) :
    values (setConnections cfg cs) =
      (cs.map (·.networkConnection)).map
        (fun v =>
          if collapseHit (valuesAppearingOnce cfg (cs.map (·.networkConnection))) v then
            .pyInt 0
          else v) := by
  simp only [values, setConnections, List.map_map]
  apply List.map_congr_left
  intro c _
  by_cases h : collapseHit (valuesAppearingOnce cfg (cs.map (·.networkConnection)))
      c.networkConnection <;> simp [h]

theorem count_collapsed_ne_zero (cfg : DomainConfig) (vals : List PyVal) (i : Nat)
    (hi : i ≠ 0) :
    pyCount
        (vals.map (fun v =>
          if collapseHit (valuesAppearingOnce cfg vals) v then .pyInt 0 else v))
        (.pyInt i)
      = if i ∈ valuesAppearingOnce cfg vals then 0 else pyCount vals (.pyInt i) := by
  rw [pyCount_eq_countP, List.countP_map]
  by_cases hmem : i ∈ valuesAppearingOnce cfg vals
  · simp only [hmem, if_true]
    rw [List.countP_eq_zero]
    intro v _
    by_cases hh : collapseHit (valuesAppearingOnce cfg vals) v = true
    · simp only [Function.comp_apply, hh, if_true]
      rw [Bool.not_eq_true, ← Bool.not_eq_true]
      intro habs
      have h0 : (PyVal.pyInt 0).numVal = some ((0 : Nat) : ℚ) := by simp [PyVal.numVal]
      have hii : (PyVal.pyInt 0).numVal = some (i : ℚ) := (pyEq_true_iff _ _).1 habs ▸ by
        simp [PyVal.numVal, ((pyEq_true_iff _ _).1 habs)]
      exact hi (numVal_nat_inj hii h0)
    · simp only [Function.comp_apply, hh, if_false]
      rw [Bool.not_eq_true, ← Bool.not_eq_true]
      intro habs
      exact hh ((collapseHit_true_iff _ _).2 ⟨i, hmem, (pyEq_true_iff _ _).1 habs ▸ by
        simp [PyVal.numVal]⟩)
  · simp only [hmem, if_false, pyCount_eq_countP]
    apply List.countP_congr
    intro v _
    by_cases hh : collapseHit (valuesAppearingOnce cfg vals) v = true
    · simp only [Function.comp_apply, hh, if_true]
      constructor
      · intro habs
        exfalso
        have hii : (PyVal.pyInt (0 : Int)).numVal = some (i : ℚ) := (pyEq_true_iff _ _).1 habs
        have h0 : (PyVal.pyInt (0 : Int)).numVal = some ((0 : Nat) : ℚ) := by
          simp [PyVal.numVal]
        exact hi (numVal_nat_inj hii h0)
      · intro habs
        exfalso
        obtain ⟨j, hjmem, hjval⟩ := (collapseHit_true_iff _ _).1 hh
        have hvi : v.numVal = some (i : ℚ) := by
          have := (pyEq_true_iff _ _).1 habs
          simpa [PyVal.numVal] using this
        exact hmem (numVal_nat_inj hjval hvi ▸ hjmem)
    · simp [hh]

theorem count_collapsed_zero_ge (cfg : DomainConfig) (vals : List PyVal) :
    pyCount vals (.pyInt 0) ≤
      pyCount
        (vals.map (fun v =>
          if collapseHit (valuesAppearingOnce cfg vals) v then .pyInt 0 else v))
        (.pyInt 0) := by
  rw [pyCount_eq_countP, pyCount_eq_countP, List.countP_map]
  apply List.countP_mono_left
  intro v _ hp
  by_cases hh : collapseHit (valuesAppearingOnce cfg vals) v = true
  · simp only [Function.comp_apply, hh, if_true]
    rw [pyEq_true_iff]
  · simpa [Function.comp_apply, hh] using hp

theorem setConnections_idem (cfg : DomainConfig) (cs : List Connection) :
    setConnections cfg (setConnections cfg cs).connections = setConnections cfg cs := by
  have hcs2 : (setConnections cfg cs).connections
      = cs.map (fun c =>
          if collapseHit (valuesAppearingOnce cfg (cs.map (·.networkConnection)))
              c.networkConnection then
            { c with networkConnection := .pyInt 0 }
          else c) := rfl
  have hvals2 : (setConnections cfg cs).connections.map (·.networkConnection)
      = (cs.map (·.networkConnection)).map
          (fun v =>
            if collapseHit (valuesAppearingOnce cfg (cs.map (·.networkConnection))) v then
              .pyInt 0
            else v) := values_setConnections cfg cs
  have key : ∀ c2 ∈ (setConnections cfg cs).connections,
      collapseHit
          (valuesAppearingOnce cfg
            ((setConnections cfg cs).connections.map (·.networkConnection)))
          c2.networkConnection = true →
        c2.networkConnection = .pyInt 0 := by
    intro c2 hc2 hhit2
    obtain ⟨i, hionce2, hival⟩ := (collapseHit_true_iff _ _).1 hhit2
    obtain ⟨hilt, hicount⟩ := (mem_valuesAppearingOnce cfg _ i).1 hionce2
    rw [hvals2] at hicount
    rw [hcs2] at hc2
    obtain ⟨c, hcmem, hceq⟩ := List.mem_map.1 hc2
    by_cases hhit : collapseHit (valuesAppearingOnce cfg (cs.map (·.networkConnection)))
        c.networkConnection = true
    · rw [← hceq]; simp [hhit]
    · have hcc : c2 = c := by rw [← hceq]; simp [hhit]
      subst hcc
      rcases Nat.eq_zero_or_pos i with hi0 | hipos
      · subst hi0
        exfalso
        simp only [Nat.cast_zero] at hicount
        have h0no : (0 : Nat) ∉ valuesAppearingOnce cfg (cs.map (·.networkConnection)) := by
          intro habs
          exact hhit ((collapseHit_true_iff _ _).2 ⟨0, habs, by simpa using hival⟩)
        have hvmem : c2.networkConnection ∈ cs.map (·.networkConnection) :=
          List.mem_map_of_mem _ hcmem
        have hpos : 0 < pyCount (cs.map (·.networkConnection)) (.pyInt 0) := by
          rw [pyCount_eq_countP]
          refine List.countP_pos_iff.2 ⟨c2.networkConnection, hvmem, ?_⟩
          rw [pyEq_true_iff]
          simpa [PyVal.numVal] using hival
        have hne1 : pyCount (cs.map (·.networkConnection)) (.pyInt 0) ≠ 1 := by
          intro habs
          exact h0no ((mem_valuesAppearingOnce cfg _ 0).2 ⟨Nat.succ_pos _, habs⟩)
        have hge := count_collapsed_zero_ge cfg (cs.map (·.networkConnection))
        omega
      · exfalso
        have hcoll := count_collapsed_ne_zero cfg (cs.map (·.networkConnection)) i (by omega)
        rw [hcoll] at hicount
        by_cases hio : i ∈ valuesAppearingOnce cfg (cs.map (·.networkConnection))
        · rw [if_pos hio] at hicount; omega
        · rw [if_neg hio] at hicount
          exact hio ((mem_valuesAppearingOnce cfg _ i).2 ⟨hilt, hicount⟩)
  show ConnectivityVector.mk
      ((setConnections cfg cs).connections.map (fun c =>
        if collapseHit
            (valuesAppearingOnce cfg
              ((setConnections cfg cs).connections.map (·.networkConnection)))
            c.networkConnection then
          { c with networkConnection := .pyInt 0 }
        else c))
    = setConnections cfg cs
  have hmapid : ((setConnections cfg cs).connections.map (fun c =>
      if collapseHit
          (valuesAppearingOnce cfg
            ((setConnections cfg cs).connections.map (·.networkConnection)))
          c.networkConnection then
        { c with networkConnection := .pyInt 0 }
      else c)) = (setConnections cfg cs).connections := by
    have hstep : ∀ c2 ∈ (setConnections cfg cs).connections,
        (if collapseHit
            (valuesAppearingOnce cfg
              ((setConnections cfg cs).connections.map (·.networkConnection)))
            c2.networkConnection then
          { c2 with networkConnection := .pyInt 0 }
        else c2) = id c2 := by
      intro c2 hc2
      by_cases hh : collapseHit
          (valuesAppearingOnce cfg
            ((setConnections cfg cs).connections.map (·.networkConnection)))
          c2.networkConnection = true
      · have hz := key c2 hc2 hh
        cases c2 with
        | mk b nc =>
            simp only [hh, if_true, id]
            simp at hz
            rw [hz]
      · simp [hh]
    rw [List.map_congr_left hstep, List.map_id]
  rw [hmapid]

/-- Claim C8: `reset` is idempotent and preserves the genome length. -/
theorem reset_idempotent_and_length (cfg : DomainConfig) (cv : ConnectivityVector) :
    reset cfg (reset cfg cv) = reset cfg cv ∧
    (reset cfg cv).connections.length = cv.connections.length := by
  exact ⟨setConnections_idem cfg cv.connections, by simp [reset, setConnections]⟩

theorem isZeroDemand_update (cfg : DomainConfig) (c : Connection) (x : PyVal) :
    ({ c with networkConnection := x } : Connection).isZeroDemand cfg
      = c.isZeroDemand cfg := by
  cases c; rfl

theorem setitemInt_int_ok (cfg : DomainConfig) (cv : ConnectivityVector) (i : Nat)
    (c : Connection) (n : Int) (hc : cv.connections.get? i = some c)
    (h0 : 0 ≤ n) (hm : n ≤ (cfg.maximumNumberOfNetworks : Int)) :
    setitemInt cfg cv i (.pyInt n) =
      .ok ⟨cv.connections.set i
        { c with networkConnection :=
            if c.isZeroDemand cfg then .pyInt 0 else .pyInt n }⟩ := by
  have hset : setNetworkConnection cfg c (.pyInt n) =
      .ok { c with networkConnection :=
              if c.isZeroDemand cfg then .pyInt 0 else .pyInt n } := by
    by_cases hn : n = 0
    · subst hn
      by_cases hz : c.isZeroDemand cfg <;>
        simp [setNetworkConnection, PyVal.truthy, hz]
    · by_cases hz : c.isZeroDemand cfg <;>
        simp [setNetworkConnection, PyVal.truthy, PyVal.isIntInstance, inPossibleConnections,
          PyVal.asInt, hn, h0, hm, hz]
  unfold setitemInt
  rw [show pyRound2 (.pyInt n) = .ok (.pyInt n) from rfl, hc]
  simp [hset]

theorem assign_loop_ok (cfg : DomainConfig) (nv : List PyVal)
    (hgood : ∀ i v, nv.get? i = some v →
      ∃ n : Int, v = .pyInt n ∧ 0 ≤ n ∧ n ≤ (cfg.maximumNumberOfNetworks : Int))
    (l : List Nat) :
    ∀ (acc : ConnectivityVector),
      (∀ i ∈ l, i < acc.connections.length ∧ i < nv.length) →
      ∃ acc', (l.foldlM (fun a i => setitemInt cfg a i (nv.getD i .pyNone)) acc
                : Except String ConnectivityVector) = .ok acc' ∧
        acc'.connections.length = acc.connections.length ∧
        ∀ p : Nat, acc'.connections.get? p =
          (if p ∈ l then
            (acc.connections.get? p).map (fun c =>
              { c with networkConnection :=
                  if c.isZeroDemand cfg then .pyInt 0 else nv.getD p .pyNone })
          else acc.connections.get? p) := by
  induction l with
  | nil =>
      intro acc _
      exact ⟨acc, rfl, rfl, fun p => by simp⟩
  | cons i rest ih =>
      intro acc hb
      obtain ⟨hilt, hinv⟩ := hb i (List.mem_cons_self i rest)
      obtain ⟨c, hc⟩ : ∃ c, acc.connections.get? i = some c :=
        ⟨_, List.get?_eq_get hilt⟩
      obtain ⟨v, hv⟩ : ∃ v, nv.get? i = some v := ⟨_, List.get?_eq_get hinv⟩
      obtain ⟨n, hvn, hn0, hnm⟩ := hgood i v hv
      have hgetD : nv.getD i .pyNone = .pyInt n := by
        rw [List.getD_eq_get?, hv, Option.getD_some, hvn]
      have hstep : setitemInt cfg acc i (nv.getD i .pyNone) =
          .ok ⟨acc.connections.set i
            { c with networkConnection :=
                if c.isZeroDemand cfg then .pyInt 0 else .pyInt n }⟩ := by
        rw [hgetD]; exact setitemInt_int_ok cfg acc i c n hc hn0 hnm
      set c1 : Connection :=
        { c with networkConnection :=
            if c.isZeroDemand cfg then .pyInt 0 else .pyInt n } with hc1
      set acc1 : ConnectivityVector := ⟨acc.connections.set i c1⟩ with hacc1
      have hlen1 : acc1.connections.length = acc.connections.length := by
        simp [hacc1]
      obtain ⟨acc', hfold, hlen', hform⟩ := ih acc1 (by
        intro j hj
        obtain ⟨h1, h2⟩ := hb j (List.mem_cons_of_mem i hj)
        exact ⟨by omega, h2⟩)
      refine ⟨acc', ?_, by omega, ?_⟩
      · rw [List.foldlM_cons, hstep]
        exact hfold
      · intro p
        have hacc1p : acc1.connections.get? p =
            (if i = p then some c1 else acc.connections.get? p) := by
          rw [hacc1]
          exact List.get?_set_of_lt' c1 acc.connections hilt
        rw [hform p]
        by_cases hpr : p ∈ rest
        · rw [if_pos hpr, if_pos (List.mem_cons_of_mem i hpr), hacc1p]
          by_cases hpi : i = p
          · subst hpi
            rw [if_pos rfl, hc]
            simp only [Option.map_some']
            congr 1
          · rw [if_neg hpi]
        · rw [if_neg hpr, hacc1p]
          by_cases hpi : i = p
          · subst hpi
            rw [if_pos rfl, if_pos (List.mem_cons_self i rest), hc]
            simp only [Option.map_some']
            rw [hc1, hgetD]
          · rw [if_neg hpi,
              if_neg (fun hmem => by
                rcases List.mem_cons.1 hmem with h | h
                · exact hpi h.symm
                · exact hpr h)]

/-- Claim C6: for any assignment in which exactly one position holds a value
`k > 0` of the legal range — through the `connections` setter (first
conjunct) or through the `values` setter (second conjunct) — canonicalization
stores `0` at that position. -/
theorem singleton_collapse (cfg : DomainConfig) :
    (∀ (cs : List Connection) (k : Nat) (pos : Nat) (c : Connection),
        0 < k → k ≤ cfg.maximumNumberOfNetworks →
        pyCount (cs.map (·.networkConnection)) (.pyInt k) = 1 →
        cs.get? pos = some c → c.networkConnection = .pyInt k →
        ((setConnections cfg cs).connections.get? pos).map (·.networkConnection)
          = some (.pyInt 0))
    ∧ (∀ (cv : ConnectivityVector) (vals : List Int) (k : Int) (pos : Nat),
        vals.length = cv.connections.length →
        (∀ v ∈ vals, 0 ≤ v ∧ v ≤ (cfg.maximumNumberOfNetworks : Int)) →
        0 < k → vals.count k = 1 → vals.get? pos = some k →
        ∃ cv', setValues cfg cv (vals.map .pyInt) = .ok cv' ∧
          (cv'.connections.get? pos).map (·.networkConnection) = some (.pyInt 0)) := by
  constructor
  · intro cs k pos c hk hkm hcount hpos hval
    have hkonce : k ∈ valuesAppearingOnce cfg (cs.map (·.networkConnection)) :=
      (mem_valuesAppearingOnce cfg _ k).2 ⟨by omega, hcount⟩
    have hhit : collapseHit (valuesAppearingOnce cfg (cs.map (·.networkConnection)))
        c.networkConnection = true :=
      (collapseHit_true_iff _ _).2 ⟨k, hkonce, by simp [hval, PyVal.numVal]⟩
    have : (setConnections cfg cs).connections.get? pos =
        some { c with networkConnection := .pyInt 0 } := by
      show (cs.map _).get? pos = _
      rw [List.get?_map, hpos, Option.map_some']
      simp [hhit]
    rw [this, Option.map_some']
  · intro cv vals k pos hlen hr hk hcount hpos
    have hk0 : (0 : Int) ≤ k := le_of_lt hk
    have hkmem : k ∈ vals := List.get?_mem hpos
    have hkm : k ≤ (cfg.maximumNumberOfNetworks : Int) := (hr k hkmem).2
    have hcast : ((k.toNat : Int)) = k := Int.toNat_of_nonneg hk0
    have hcountmap : ∀ j : Int, pyCount (vals.map .pyInt) (.pyInt j) = vals.count j := by
      intro j
      rw [pyCount_eq_countP, List.countP_map, List.count_eq_countP]
      apply List.countP_congr
      intro v _
      simp [pyEq, PyVal.numVal]
    have hkonce : k.toNat ∈ valuesAppearingOnce cfg (vals.map .pyInt) := by
      refine (mem_valuesAppearingOnce cfg _ k.toNat).2 ⟨by omega, ?_⟩
      rw [show (PyVal.pyInt k.toNat) = PyVal.pyInt k by rw [hcast]]
      rw [hcountmap k, hcount]
    have hlen2 : (vals.map PyVal.pyInt).length = cv.connections.length := by
      simpa using hlen
    set once := valuesAppearingOnce cfg (vals.map .pyInt) with honce
    set nv := (vals.map PyVal.pyInt).map
        (fun v => if collapseHit once v then PyVal.pyInt 0 else v) with hnv
    have hgood : ∀ i v, nv.get? i = some v →
        ∃ n : Int, v = .pyInt n ∧ 0 ≤ n ∧ n ≤ (cfg.maximumNumberOfNetworks : Int) := by
      intro i v hv
      rw [hnv, List.get?_map, List.get?_map] at hv
      cases hw : vals.get? i with
      | none => rw [hw] at hv; simp at hv
      | some w =>
          rw [hw] at hv
          simp only [Option.map_some'] at hv
          by_cases hh : collapseHit once (.pyInt w) = true
          · rw [if_pos hh] at hv
            exact ⟨0, (Option.some.inj hv).symm, le_refl 0, by exact_mod_cast Nat.zero_le _⟩
          · rw [if_neg hh] at hv
            obtain ⟨h1, h2⟩ := hr w (List.get?_mem hw)
            exact ⟨w, (Option.some.inj hv).symm, h1, h2⟩
    obtain ⟨acc', hfold, hlenacc, hform⟩ := assign_loop_ok cfg nv hgood
      (List.range cv.connections.length) cv
      (by
        intro i hi
        have hi2 := List.mem_range.1 hi
        constructor
        · exact hi2
        · rw [hnv]; simpa [hlen] using hi2)
    have hposlt : pos < vals.length := by
      rcases List.get?_eq_some.1 hpos with ⟨h, _⟩
      exact h
    have hposmem : pos ∈ List.range cv.connections.length :=
      List.mem_range.2 (by omega)
    have hnvpos : nv.getD pos .pyNone = .pyInt 0 := by
      have hget : nv.get? pos = some (.pyInt 0) := by
        rw [hnv, List.get?_map, List.get?_map, hpos]
        simp only [Option.map_some']
        have hhit : collapseHit once (.pyInt k) = true := by
          refine (collapseHit_true_iff _ _).2 ⟨k.toNat, hkonce, ?_⟩
          simp [PyVal.numVal]
          exact_mod_cast hcast.symm
        rw [if_pos hhit]
      rw [List.getD_eq_get?, hget, Option.getD_some]
    obtain ⟨c0, hc0⟩ : ∃ c0, cv.connections.get? pos = some c0 :=
      ⟨_, List.get?_eq_get (by omega)⟩
    refine ⟨acc', ?_, ?_⟩
    · unfold setValues
      rw [if_neg (by simp [hlen2])]
      exact hfold
    · rw [hform pos, if_pos hposmem, hc0, hnvpos]
      simp only [Option.map_some']
      by_cases hz : c0.isZeroDemand cfg <;> simp [hz]

/-- Witness for C6: in `[1, 1, 2]` the value `2` is a singleton; both
assignment paths store `0` at its position. -/
theorem singleton_collapse_witness :
    (((setConnections cfgEx (genomeOfInts [1, 1, 2]).connections).connections.get? 2).map
        (·.networkConnection) = some (.pyInt 0))
    ∧ ∃ cv', setValues cfgEx (genomeOfInts [1, 1, 2]) (([1, 1, 2] : List Int).map .pyInt)
          = .ok cv' ∧
        (cv'.connections.get? 2).map (·.networkConnection) = some (.pyInt 0) :=
  ⟨(singleton_collapse cfgEx).1 (genomeOfInts [1, 1, 2]).connections 2 2 ⟨none, .pyInt 2⟩
      (by decide) (by decide) (by decide) (by decide) (by decide),
   (singleton_collapse cfgEx).2 (genomeOfInts [1, 1, 2]) [1, 1, 2] 2 2
      (by decide) (by decide) (by decide) (by decide) (by decide)⟩

theorem dictInsert_keys (d : List (String × ConnectivityVector)) (k : String)
    (v : ConnectivityVector) (hd : ∀ kv ∈ d, asStr kv.2 = kv.1) (hv : asStr v = k) :
    ∀ kv ∈ dictInsert d k v, asStr kv.2 = kv.1 := by
  intro kv hkv
  unfold dictInsert at hkv
  by_cases hany : d.any (fun kv => kv.1 == k)
  · rw [if_pos hany] at hkv
    obtain ⟨kv0, hkv0, heq⟩ := List.mem_map.1 hkv
    by_cases hk0 : kv0.1 == k
    · rw [if_pos hk0] at heq
      rw [← heq]
      exact hv
    · rw [if_neg hk0] at heq
      rw [← heq]
      exact hd kv0 hkv0
  · rw [if_neg hany] at hkv
    rcases List.mem_append.1 hkv with h | h
    · exact hd kv h
    · rw [List.mem_singleton.1 h]
      exact hv

theorem buildIndividualDict_keys (inds : List ConnectivityVector) :
    ∀ kv ∈ buildIndividualDict inds, asStr kv.2 = kv.1 := by
  suffices h : ∀ (d : List (String × ConnectivityVector)),
      (∀ kv ∈ d, asStr kv.2 = kv.1) →
      ∀ kv ∈ inds.foldl (fun d ind => dictInsert d (asStr ind) ind) d, asStr kv.2 = kv.1 by
    exact h [] (by simp)
  induction inds with
  | nil => intro d hd kv hkv; exact hd kv hkv
  | cons a rest ih =>
      intro d hd kv hkv
      exact ih (dictInsert d (asStr a) a) (dictInsert_keys d (asStr a) a hd rfl) kv hkv

theorem selectFromFront_inv (size : Nat) (ks : List String) :
    ∀ (dict : List (String × ConnectivityVector)) (pop : List ConnectivityVector),
      (∀ kv ∈ dict, asStr kv.2 = kv.1) →
      (∀ g ∈ pop, ∀ kv ∈ dict, kv.1 ≠ asStr g) →
      pop.Pairwise (fun g1 g2 => asStr g1 ≠ asStr g2) →
      pop.length ≤ size →
      (∀ kv ∈ (selectFromFront size ks dict pop).2, asStr kv.2 = kv.1) ∧
      (∀ g ∈ (selectFromFront size ks dict pop).1,
        ∀ kv ∈ (selectFromFront size ks dict pop).2, kv.1 ≠ asStr g) ∧
      (selectFromFront size ks dict pop).1.Pairwise (fun g1 g2 => asStr g1 ≠ asStr g2) ∧
      (selectFromFront size ks dict pop).1.length ≤ size := by
  induction ks with
  | nil =>
      intro dict pop h1 h2 h3 h4
      exact ⟨h1, h2, h3, h4⟩
  | cons k ks ih =>
      intro dict pop h1 h2 h3 h4
      by_cases hfull : size ≤ pop.length
      · simp only [selectFromFront, if_pos hfull]
        exact ⟨h1, h2, h3, h4⟩
      · simp only [selectFromFront, if_neg hfull]
        cases hfind : dict.find? (fun kv => kv.1 == k) with
        | none => exact ih dict pop h1 h2 h3 h4
        | some kv =>
            have hkvmem : kv ∈ dict := List.mem_of_find?_eq_some hfind
            have hkvkey : kv.1 = k := by
              have := List.find?_some hfind
              simpa using this
            have hkv2 : asStr kv.2 = k := by rw [h1 kv hkvmem, hkvkey]
            apply ih
            · intro kv2 hkv2'
              exact h1 kv2 (List.mem_of_mem_filter hkv2')
            · intro g hg kv2 hkv2'
              rcases List.mem_append.1 hg with hgpop | hgkv
              · exact h2 g hgpop kv2 (List.mem_of_mem_filter hkv2')
              · rw [List.mem_singleton.1 hgkv]
                have hne := (List.mem_filter.1 hkv2').2
                simp only [Bool.not_eq_true'] at hne
                rw [hkv2]
                simpa using hne
            · rw [List.pairwise_append]
              refine ⟨h3, List.pairwise_singleton _ _, ?_⟩
              intro g hgpop b hb
              rw [List.mem_singleton.1 hb, hkv2]
              intro habs
              exact h2 g hgpop kv hkvmem (hkvkey.trans habs.symm)
            · simp only [List.length_append, List.length_singleton]
              omega

theorem selectLoop_inv (size : Nat) (fronts : List (List String)) :
    ∀ (dict : List (String × ConnectivityVector)) (pop : List ConnectivityVector),
      (∀ kv ∈ dict, asStr kv.2 = kv.1) →
      (∀ g ∈ pop, ∀ kv ∈ dict, kv.1 ≠ asStr g) →
      pop.Pairwise (fun g1 g2 => asStr g1 ≠ asStr g2) →
      pop.length ≤ size →
      (selectLoop size fronts dict pop).Pairwise (fun g1 g2 => asStr g1 ≠ asStr g2) ∧
      (selectLoop size fronts dict pop).length ≤ size := by
  induction fronts with
  | nil =>
      intro dict pop _ _ h3 h4
      exact ⟨h3, h4⟩
  | cons front fronts ih =>
      intro dict pop h1 h2 h3 h4
      by_cases hfull : size ≤ pop.length
      · simp only [selectLoop, if_pos hfull]
        exact ⟨h3, h4⟩
      · simp only [selectLoop, if_neg hfull]
        obtain ⟨g1, g2, g3, g4⟩ := selectFromFront_inv size front dict pop h1 h2 h3 h4
        exact ih _ _ g1 g2 g3 g4

/-- Claim C3: for every set-order oracle, external non-dominated sorter,
population, fitness-solution lists and population size, `select` returns at
most `population_size` genomes and no two returned genomes share a canonical
`as_str` encoding. -/
theorem select_size_bound_and_distinct (σS : List String → List String)
    (sortFronts : List SystemCombination → List (List SystemCombination))
    (individualsList : List ConnectivityVector)
    (solutionsLists : List (List SystemCombination)) (populationSize : Nat) :
    (select σS sortFronts individualsList solutionsLists populationSize).length
        ≤ populationSize ∧
    (select σS sortFronts individualsList solutionsLists populationSize).Pairwise
        (fun g1 g2 => asStr g1 ≠ asStr g2) := by
  have h := selectLoop_inv populationSize
    (connectivityVectorsByFront σS (sortFronts solutionsLists.flatten))
    (buildIndividualDict individualsList) []
    (buildIndividualDict_keys individualsList)
    (by intro g hg; simp at hg)
    (List.Pairwise.nil)
    (Nat.zero_le _)
  exact ⟨h.2, h.1⟩

/-- Counterexample for C4: with a legal set-iteration order (`List.dedup`,
which keeps last occurrences), `select` does not append the genomes of a
front in first-encounter order — the claim, universally quantified over legal
set orders, is false. -/
theorem select_front_order_not_encounter_order :
    ¬ (∀ σS : List String → List String, IsPySetOrder σS →
        ∀ (sortFronts : List SystemCombination → List (List SystemCombination))
          (individualsList : List ConnectivityVector)
          (solutionsLists : List (List SystemCombination)) (populationSize : Nat),
          select σS sortFronts individualsList solutionsLists populationSize =
            select distinctKeysInEncounterOrder sortFronts individualsList solutionsLists
              populationSize) := by
  intro h
  have hx := h (fun xs => xs.dedup) isPySetOrder_dedup (fun xs => [xs])
    [genomeOfInts [1, 1], genomeOfInts [2, 2]] [[⟨"1_1"⟩, ⟨"2_2"⟩, ⟨"1_1"⟩]] 2
  exact absurd hx (by decide)

theorem connectivity_vectors_by_front_distinct (σS : List String → List String)
    (hσ : IsPySetOrder σS) (fronts : List (List SystemCombination)) :
    ∀ ks ∈ connectivityVectorsByFront σS fronts, ∃ front ∈ fronts,
      ks.Nodup ∧ ∀ s, s ∈ ks ↔ ∃ sol ∈ front, sol.encoding0 = s := by
  intro ks hks
  obtain ⟨front, hfr, heq⟩ := List.mem_map.1 hks
  refine ⟨front, hfr, ?_, ?_⟩
  · rw [← heq]
    exact (hσ (front.map (·.encoding0))).1
  · intro s
    rw [← heq, (hσ (front.map (·.encoding0))).2 s]
    simp [List.mem_map]

theorem selectFromFront_order (size : Nat) (ks : List String) :
    ∀ (dict : List (String × ConnectivityVector)) (pop : List ConnectivityVector),
      (∀ kv ∈ dict, asStr kv.2 = kv.1) →
      (∀ kv ∈ (selectFromFront size ks dict pop).2, asStr kv.2 = kv.1) ∧
      ∃ picked : List String, List.Sublist picked ks ∧
        (selectFromFront size ks dict pop).1.map asStr = pop.map asStr ++ picked := by
  induction ks with
  | nil =>
      intro dict pop h1
      exact ⟨h1, [], List.nil_sublist _, by simp [selectFromFront]⟩
  | cons k ks ih =>
      intro dict pop h1
      by_cases hfull : size ≤ pop.length
      · simp only [selectFromFront, if_pos hfull]
        exact ⟨h1, [], List.nil_sublist _, by simp⟩
      · simp only [selectFromFront, if_neg hfull]
        cases hfind : dict.find? (fun kv => kv.1 == k) with
        | none =>
            obtain ⟨g1, picked, hsub, heq⟩ := ih dict pop h1
            exact ⟨g1, picked, List.Sublist.cons k hsub, heq⟩
        | some kv =>
            have hkvmem : kv ∈ dict := List.mem_of_find?_eq_some hfind
            have hkvkey : kv.1 = k := by
              have := List.find?_some hfind
              simpa using this
            have hkv2 : asStr kv.2 = k := by rw [h1 kv hkvmem, hkvkey]
            have hdict' : ∀ kv2 ∈ dict.filter (fun kv2 => !(kv2.1 == k)),
                asStr kv2.2 = kv2.1 :=
              fun kv2 hkv2m => h1 kv2 (List.mem_of_mem_filter hkv2m)
            obtain ⟨g1, picked, hsub, heq⟩ :=
              ih (dict.filter (fun kv2 => !(kv2.1 == k))) (pop ++ [kv.2]) hdict'
            refine ⟨g1, k :: picked, List.Sublist.cons₂ k hsub, ?_⟩
            rw [heq]
            simp [hkv2]

theorem selectLoop_order (size : Nat) (fronts : List (List String)) :
    ∀ (dict : List (String × ConnectivityVector)) (pop : List ConnectivityVector),
      (∀ kv ∈ dict, asStr kv.2 = kv.1) →
      ∃ picked : List String, List.Sublist picked fronts.flatten ∧
        (selectLoop size fronts dict pop).map asStr = pop.map asStr ++ picked := by
  induction fronts with
  | nil =>
      intro dict pop _
      exact ⟨[], List.nil_sublist _, by simp [selectLoop]⟩
  | cons front fronts ih =>
      intro dict pop h1
      by_cases hfull : size ≤ pop.length
      · simp only [selectLoop, if_pos hfull]
        exact ⟨[], List.nil_sublist _, by simp⟩
      · simp only [selectLoop, if_neg hfull]
        obtain ⟨hdict', picked1, hsub1, heq1⟩ := selectFromFront_order size front dict pop h1
        obtain ⟨picked2, hsub2, heq2⟩ := ih (selectFromFront size front dict pop).2
          (selectFromFront size front dict pop).1 hdict'
        refine ⟨picked1 ++ picked2, ?_, ?_⟩
        · simpa using List.Sublist.append hsub1 hsub2
        · rw [heq2, heq1, List.append_assoc]

/-- Claim C4 (amended): for every legal set-iteration order, each front's
collected key list holds exactly the encodings occurring among that front's
solutions, each once (in the set-iteration order, not first-encounter order),
and `select` appends the corresponding genomes to the output following that
collected order — the output's sequence of canonical encodings is an
order-preserving subsequence of the concatenated per-front key lists. -/
theorem select_appends_in_collected_order (σS : List String → List String)
    (hσ : IsPySetOrder σS)
    (sortFronts : List SystemCombination → List (List SystemCombination))
    (individualsList : List ConnectivityVector)
    (solutionsLists : List (List SystemCombination)) (populationSize : Nat) :
    (∀ ks ∈ connectivityVectorsByFront σS (sortFronts solutionsLists.flatten),
        ∃ front ∈ sortFronts solutionsLists.flatten, ks.Nodup ∧
          ∀ s, s ∈ ks ↔ ∃ sol ∈ front, sol.encoding0 = s)
    ∧ List.Sublist
        ((select σS sortFronts individualsList solutionsLists populationSize).map asStr)
        (connectivityVectorsByFront σS (sortFronts solutionsLists.flatten)).flatten := by
  constructor
  · exact connectivity_vectors_by_front_distinct σS hσ (sortFronts solutionsLists.flatten)
  · obtain ⟨picked, hsub, heq⟩ := selectLoop_order populationSize
      (connectivityVectorsByFront σS (sortFronts solutionsLists.flatten))
      (buildIndividualDict individualsList) []
      (buildIndividualDict_keys individualsList)
    show List.Sublist ((selectLoop populationSize
        (connectivityVectorsByFront σS (sortFronts solutionsLists.flatten))
        (buildIndividualDict individualsList) []).map asStr) _
    rw [heq]
    simpa using hsub

/-- Witness for the amended C4 at a concrete run: the collected key list is
`["2_2", "1_1"]` and the selected population's encodings follow it. -/
theorem select_appends_in_collected_order_witness :
    (∀ ks ∈ connectivityVectorsByFront (fun xs => xs.dedup)
        [[(⟨"1_1"⟩ : SystemCombination), ⟨"2_2"⟩, ⟨"1_1"⟩]],
      ∃ front ∈ [[(⟨"1_1"⟩ : SystemCombination), ⟨"2_2"⟩, ⟨"1_1"⟩]], ks.Nodup ∧
        ∀ s, s ∈ ks ↔ ∃ sol ∈ front, sol.encoding0 = s)
    ∧ List.Sublist
        ((select (fun xs => xs.dedup) (fun xs => [xs])
            [genomeOfInts [1, 1], genomeOfInts [2, 2]]
            [[⟨"1_1"⟩, ⟨"2_2"⟩, ⟨"1_1"⟩]] 2).map asStr)
        (connectivityVectorsByFront (fun xs => xs.dedup)
            [[(⟨"1_1"⟩ : SystemCombination), ⟨"2_2"⟩, ⟨"1_1"⟩]]).flatten :=
  select_appends_in_collected_order (fun xs => xs.dedup) isPySetOrder_dedup
    (fun xs => [xs]) [genomeOfInts [1, 1], genomeOfInts [2, 2]]
    [[⟨"1_1"⟩, ⟨"2_2"⟩, ⟨"1_1"⟩]] 2

theorem ok_bind {α β : Type} (a : α) (f : α → Except String β) :
    (Except.ok a >>= f : Except String β) = f a := rfl

theorem pyMaxByCount_spec (vals : List PyVal) (ds : List PyVal) :
    ∀ d : PyVal, pyMaxByCount vals d ds ∈ d :: ds ∧
      ∀ w ∈ d :: ds, pyCount vals w ≤ pyCount vals (pyMaxByCount vals d ds) := by
  induction ds with
  | nil =>
      intro d
      refine ⟨List.mem_singleton.2 rfl, ?_⟩
      intro w hw
      rw [List.mem_singleton.1 hw]
      exact le_refl _
  | cons x t ih =>
      intro d
      have hstep : pyMaxByCount vals d (x :: t) =
          pyMaxByCount vals (if pyCount vals d < pyCount vals x then x else d) t := rfl
      obtain ⟨hmem, hge⟩ := ih (if pyCount vals d < pyCount vals x then x else d)
      have hstart_d : pyCount vals d ≤
          pyCount vals (if pyCount vals d < pyCount vals x then x else d) := by
        by_cases hc : pyCount vals d < pyCount vals x
        · rw [if_pos hc]; omega
        · rw [if_neg hc]
      have hstart_x : pyCount vals x ≤
          pyCount vals (if pyCount vals d < pyCount vals x then x else d) := by
        by_cases hc : pyCount vals d < pyCount vals x
        · rw [if_pos hc]
        · rw [if_neg hc]; omega
      constructor
      · rw [hstep]
        by_cases hc : pyCount vals d < pyCount vals x
        · rw [if_pos hc] at hmem ⊢
          rcases List.mem_cons.1 hmem with h | h
          · rw [h]
            exact List.mem_cons_of_mem _ (List.mem_cons_self _ _)
          · exact List.mem_cons_of_mem _ (List.mem_cons_of_mem _ h)
        · rw [if_neg hc] at hmem ⊢
          rcases List.mem_cons.1 hmem with h | h
          · rw [h]
            exact List.mem_cons_self _ _
          · exact List.mem_cons_of_mem _ (List.mem_cons_of_mem _ h)
      · intro w hw
        rw [hstep]
        rcases List.mem_cons.1 hw with h | h
        · rw [h]
          exact le_trans hstart_d (hge _ (List.mem_cons_self _ _))
        · rcases List.mem_cons.1 h with h2 | h2
          · rw [h2]
            exact le_trans hstart_x (hge _ (List.mem_cons_self _ _))
          · exact hge w (List.mem_cons_of_mem _ h2)

theorem setFold_length (v : PyVal) (l : List Nat) :
    ∀ mpv : List PyVal, (l.foldl (fun acc i => acc.set i v) mpv).length = mpv.length := by
  induction l with
  | nil => intro mpv; rfl
  | cons i t ih =>
      intro mpv
      rw [List.foldl_cons, ih]
      simp

theorem setFold_get? (v : PyVal) (l : List Nat) :
    ∀ (mpv : List PyVal) (p : Nat),
      (l.foldl (fun acc i => acc.set i v) mpv).get? p =
        if p ∈ l ∧ p < mpv.length then some v else mpv.get? p := by
  induction l with
  | nil => intro mpv p; simp
  | cons i t ih =>
      intro mpv p
      rw [List.foldl_cons, ih]
      by_cases hmem : p ∈ t ∧ p < (mpv.set i v).length
      · rw [if_pos hmem]
        rw [if_pos ⟨List.mem_cons_of_mem _ hmem.1, by
          simpa using hmem.2⟩]
      · rw [if_neg hmem]
        by_cases hlt : p < mpv.length
        · have hpt : p ∉ t := fun h => hmem ⟨h, by simpa using hlt⟩
          by_cases hpi : i = p
          · subst hpi
            rw [if_pos ⟨List.mem_cons_self _ _, hlt⟩]
            rw [List.get?_set_of_lt' v mpv hlt, if_pos rfl]
          · have hcond : ¬ (p ∈ i :: t ∧ p < mpv.length) := by
              rintro ⟨hm, _⟩
              rcases List.mem_cons.1 hm with h | h
              · exact hpi h.symm
              · exact hpt h
            rw [if_neg hcond, List.get?_set_ne v mpv hpi]
        · have h1 : ¬ (p ∈ i :: t ∧ p < mpv.length) := fun h => hlt h.2
          rw [if_neg h1]
          by_cases hpi : i = p
          · subst hpi
            have hset : mpv.set i v = mpv :=
              List.set_eq_of_length_le (by omega)
            rw [hset]
          · rw [List.get?_set_ne v mpv hpi]

theorem mem_relevantBuildingIndexes (ci : List Int) (cluster : Int) (i : Nat) :
    i ∈ relevantBuildingIndexes ci cluster ↔ ci.get? i = some cluster := by
  unfold relevantBuildingIndexes
  rw [List.mem_filterMap]
  constructor
  · rintro ⟨ix, hmem, hif⟩
    by_cases h : ix.2 = cluster
    · rw [if_pos h] at hif
      obtain rfl := Option.some.inj hif
      have := List.mem_enum_iff_getElem?.1 hmem
      rw [List.get?_eq_getElem?, ← h]
      exact this
    · rw [if_neg h] at hif
      cases hif
  · intro h
    refine ⟨(i, cluster), ?_, by simp⟩
    rw [List.mem_enum_iff_getElem?]
    rw [List.get?_eq_getElem?] at h
    exact h

theorem getValuesAt_ok (cv : ConnectivityVector) (l : List Nat)
    (hb : ∀ i ∈ l, i < cv.connections.length) :
    getValuesAt cv l = .ok (l.map (valueAt cv)) := by
  induction l with
  | nil => rfl
  | cons i t ih =>
      have hi := hb i (List.mem_cons_self i t)
      obtain ⟨c, hc⟩ : ∃ c, cv.connections.get? i = some c := ⟨_, List.get?_eq_get hi⟩
      have hget : getitemInt cv i = .ok (valueAt cv i) := by
        unfold getitemInt valueAt
        rw [hc]
      unfold getValuesAt
      rw [hget, ih (fun j hj => hb j (List.mem_cons_of_mem i hj))]
      rfl

theorem getMostStep_neg (σP : List PyVal → List PyVal) (ci : List Int)
    (cv : ConnectivityVector) (mpv : List PyVal) (cluster : Int) (hcl : cluster < 0) :
    getMostStep σP ci cv mpv cluster = .ok mpv := by
  unfold getMostStep
  rw [if_pos hcl]
  rfl

theorem getMostStep_eq (σP : List PyVal → List PyVal) (ci : List Int)
    (cv : ConnectivityVector) (hci : ci.length = cv.connections.length)
    (mpv : List PyVal) (cluster : Int) (hcl : ¬ cluster < 0)
    (hne : σP (clusterVals ci cv cluster) ≠ []) :
    getMostStep σP ci cv mpv cluster =
      .ok ((relevantBuildingIndexes ci cluster).foldl
        (fun acc index => acc.set index (clusterMode σP ci cv cluster)) mpv) := by
  have hb : ∀ i ∈ relevantBuildingIndexes ci cluster, i < cv.connections.length := by
    intro i hi
    have h := (mem_relevantBuildingIndexes ci cluster i).1 hi
    obtain ⟨hlt, _⟩ := List.get?_eq_some.1 h
    omega
  unfold getMostStep
  rw [if_neg hcl]
  simp only [getValuesAt_ok cv _ hb, ok_bind]
  cases hσ : σP ((relevantBuildingIndexes ci cluster).map (valueAt cv)) with
  | nil => exact absurd hσ hne
  | cons d ds =>
      have hmode : clusterMode σP ci cv cluster =
          pyMaxByCount ((relevantBuildingIndexes ci cluster).map (valueAt cv)) d ds := by
        unfold clusterMode clusterVals
        rw [hσ]
      rw [hmode]
      rfl

theorem getMostStep_empty_raises (σP : List PyVal → List PyVal) (ci : List Int)
    (cv : ConnectivityVector) (mpv : List PyVal) (cluster : Int) (hcl : ¬ cluster < 0)
    (hb : ∀ i ∈ relevantBuildingIndexes ci cluster, i < cv.connections.length)
    (hempty : σP (clusterVals ci cv cluster) = []) :
    getMostStep σP ci cv mpv cluster = .error "ValueError: max arg is an empty sequence" := by
  unfold getMostStep
  rw [if_neg hcl]
  simp only [getValuesAt_ok cv _ hb, ok_bind]
  have hs : σP ((relevantBuildingIndexes ci cluster).map (valueAt cv)) = [] := hempty
  rw [hs]

theorem getMost_fold_char (σP : List PyVal → List PyVal) (ci : List Int)
    (cv : ConnectivityVector) (hci : ci.length = cv.connections.length)
    (c : Int) (hc : ¬ c < 0) (pos : Nat) (hpos : ci.get? pos = some c)
    (clusters : List Int) :
    ∀ (mpv : List PyVal) (res : List PyVal),
      mpv.length = cv.connections.length →
      (clusters.foldlM (getMostStep σP ci cv) mpv : Except String (List PyVal)) = .ok res →
      (c ∈ clusters → res.get? pos = some (clusterMode σP ci cv c)) ∧
      (c ∉ clusters → res.get? pos = mpv.get? pos) := by
  have hposlt : pos < cv.connections.length := by
    obtain ⟨hlt, _⟩ := List.get?_eq_some.1 hpos
    omega
  induction clusters with
  | nil =>
      intro mpv res _ hres
      obtain rfl : mpv = res := by
        rw [List.foldlM_nil] at hres
        exact Except.ok.inj hres
      exact ⟨fun h => by simp at h, fun _ => rfl⟩
  | cons cl rest ih =>
      intro mpv res hlen hres
      rw [List.foldlM_cons] at hres
      by_cases hcl : cl < 0
      · rw [getMostStep_neg σP ci cv mpv cl hcl, ok_bind] at hres
        obtain ⟨h1, h2⟩ := ih mpv res hlen hres
        refine ⟨?_, ?_⟩
        · intro hmem
          rcases List.mem_cons.1 hmem with h | h
          · exact absurd (h ▸ hcl) hc
          · exact h1 h
        · intro hnmem
          exact h2 (fun h => hnmem (List.mem_cons_of_mem _ h))
      · have hb : ∀ i ∈ relevantBuildingIndexes ci cl, i < cv.connections.length := by
          intro i hi
          obtain ⟨hlt, _⟩ := List.get?_eq_some.1 ((mem_relevantBuildingIndexes ci cl i).1 hi)
          omega
        cases hσ : σP (clusterVals ci cv cl) with
        | nil =>
            rw [getMostStep_empty_raises σP ci cv mpv cl hcl hb hσ] at hres
            cases hres
        | cons d ds =>
            rw [getMostStep_eq σP ci cv hci mpv cl hcl (by rw [hσ]; simp), ok_bind] at hres
            have hlen1 : ((relevantBuildingIndexes ci cl).foldl
                (fun acc index => acc.set index (clusterMode σP ci cv cl)) mpv).length
                = cv.connections.length := by
              rw [setFold_length]
              exact hlen
            obtain ⟨h1, h2⟩ := ih _ res hlen1 hres
            refine ⟨?_, ?_⟩
            · intro hmem
              rcases List.mem_cons.1 hmem with hceq | hmem2
              · by_cases hrest : c ∈ rest
                · exact h1 hrest
                · rw [h2 hrest, setFold_get?]
                  subst hceq
                  have hposmem : pos ∈ relevantBuildingIndexes ci c :=
                    (mem_relevantBuildingIndexes ci c pos).2 hpos
                  rw [if_pos ⟨hposmem, by omega⟩]
              · exact h1 hmem2
            · intro hnmem
              have hc_ne : c ≠ cl := fun h => hnmem (h ▸ List.mem_cons_self _ _)
              have hc_nr : c ∉ rest := fun h => hnmem (List.mem_cons_of_mem _ h)
              rw [h2 hc_nr, setFold_get?]
              rw [if_neg (by
                rintro ⟨hmem', _⟩
                exact hc_ne (Option.some.inj
                  (hpos.symm.trans ((mem_relevantBuildingIndexes ci cl pos).1 hmem'))))]

/-- Claim C5 (amended): for every legal set-iteration order, the value the
code computes for a non-outlier cluster position is one of that cluster's
values attaining the maximum frequency — ties are broken by the set-iteration
order (`max` keeps its first maximal element), not by first position order. -/
theorem cluster_mode_is_most_frequent (σP : List PyVal → List PyVal)
    (hσ : IsPySetOrder σP) (ci : List Int) (cv : ConnectivityVector)
    (clusters : List Int) (res : List PyVal)
    (hci : ci.length = cv.connections.length)
    (pos : Nat) (c : Int) (hpos : ci.get? pos = some c) (hc : 0 ≤ c)
    (hmem : c ∈ clusters)
    (hres : getMostPrevalentConnectivityValues σP ci cv clusters = .ok res) :
    ∃ v, res.get? pos = some v ∧ v ∈ clusterVals ci cv c ∧
      ∀ w ∈ clusterVals ci cv c,
        pyCount (clusterVals ci cv c) w ≤ pyCount (clusterVals ci cv c) v := by
  have hcneg : ¬ c < 0 := by omega
  unfold getMostPrevalentConnectivityValues at hres
  obtain ⟨h1, _⟩ := getMost_fold_char σP ci cv hci c hcneg pos hpos clusters _ res
    (by simp) hres
  have hposrel : pos ∈ relevantBuildingIndexes ci c :=
    (mem_relevantBuildingIndexes ci c pos).2 hpos
  have hvmem : valueAt cv pos ∈ clusterVals ci cv c := List.mem_map_of_mem _ hposrel
  have hne : σP (clusterVals ci cv c) ≠ [] := by
    intro hempty
    have hmem2 := ((hσ (clusterVals ci cv c)).2 (valueAt cv pos)).2 hvmem
    rw [hempty] at hmem2
    cases hmem2
  cases hσP : σP (clusterVals ci cv c) with
  | nil => exact absurd hσP hne
  | cons d ds =>
      have hmode : clusterMode σP ci cv c = pyMaxByCount (clusterVals ci cv c) d ds := by
        unfold clusterMode
        rw [hσP]
      obtain ⟨hmm, hgg⟩ := pyMaxByCount_spec (clusterVals ci cv c) ds d
      refine ⟨clusterMode σP ci cv c, h1 hmem, ?_, ?_⟩
      · rw [hmode]
        have hin : pyMaxByCount (clusterVals ci cv c) d ds ∈ σP (clusterVals ci cv c) := by
          rw [hσP]
          exact hmm
        exact ((hσ (clusterVals ci cv c)).2 _).1 hin
      · intro w hw
        rw [hmode]
        apply hgg
        have hw2 : w ∈ σP (clusterVals ci cv c) := ((hσ (clusterVals ci cv c)).2 w).2 hw
        rw [hσP] at hw2
        exact hw2

/-- Witness for the amended C5 at a concrete cluster configuration. -/
theorem cluster_mode_is_most_frequent_witness :
    ∃ v, ([PyVal.pyInt 1, PyVal.pyInt 1] : List PyVal).get? 0 = some v ∧
      v ∈ clusterVals [0, 0] (genomeOfInts [1, 1]) 0 ∧
      ∀ w ∈ clusterVals [0, 0] (genomeOfInts [1, 1]) 0,
        pyCount (clusterVals [0, 0] (genomeOfInts [1, 1]) 0) w ≤
          pyCount (clusterVals [0, 0] (genomeOfInts [1, 1]) 0) v :=
  cluster_mode_is_most_frequent (fun xs => xs.dedup) isPySetOrder_dedup
    [0, 0] (genomeOfInts [1, 1]) [0] [.pyInt 1, .pyInt 1] rfl 0 0 rfl
    (by decide) (by decide) rfl

/-- Counterexample for C5: with the legal set order `List.dedup` the mode
computed for cluster values `[2, 1, 1, 2]` is `1` (the first maximal element
in set-iteration order), while the spec-modelled tie-break by first position
order yields `2` — the claim, universally quantified over legal set orders,
is false. -/
theorem cluster_mode_tie_not_first_position :
    ¬ (∀ (σZ : List Int → List Int) (σP : List PyVal → List PyVal),
        IsPySetOrder σZ → IsPySetOrder σP →
        ∀ (ci : List Int) (cv : ConnectivityVector) (res : List PyVal),
          ci.length = cv.connections.length →
          getMostPrevalentConnectivityValues σP ci cv (σZ ci) = .ok res →
          res = specMostPrevalentValues ci cv) := by
  intro h
  have hx := h (fun xs => xs.dedup) (fun xs => xs.dedup) isPySetOrder_dedup
    isPySetOrder_dedup [0, 0, 0, 0] (genomeOfInts [2, 1, 1, 2])
    [.pyInt 1, .pyInt 1, .pyInt 1, .pyInt 1] rfl rfl
  exact absurd hx (by decide)

end CEA
